import Mathlib

/-!
Shallow embedding of the OpenR KvStore utilities (openr/kvstore/KvStoreUtil.h
and the OpenrCtrlHandler code shipped with its tests).  The repository ships
only the declarations of the KvStore utility functions; their bodies are
modelled from the specification, as marked on each definition.
-/

namespace Openr

/-- Modelled from the spec: the `thrift::Value` record (spec section 3, Data
model; the thrift interface file is not in the repository).  `version` and
`ttl_version` are 64-bit counters, `originator_id` a string, `payload` an
opaque byte string that may be absent, `ttl_ms` a signed 64-bit countdown,
`hash` a digest that is present even when the payload is absent. -/
structure Value where
  version : Nat
  originatorId : String
  value : Option String
  ttl : Int
  ttlVersion : Nat
  hash : Int
deriving DecidableEq, Repr

/-- Modelled from the spec: the configured TTL floor, "default 1 ms"
(spec section 4.1 step 2), also used as the egress omission threshold
(spec section 4.3). -/
def kTtlThreshold : Int := 1

/-- Modelled from the spec: the explicit "infinity" TTL sentinel
(spec section 4.1 step 2).  The spec does not give its numeric value;
INT32_MIN is used here as a concrete sentinel distinct from every real ttl. -/
def kTtlInfinity : Int := -2147483648

/-- Modelled from the spec: the tie-breaking comparison on `ttl_version`,
comparator (d) of `compareValues` (spec section 4.1 step 4d): larger wins. -/
def compareTtlVersion (v1 v2 : Value) : Int :=
  if v2.ttlVersion < v1.ttlVersion then 1
  else if v1.ttlVersion < v2.ttlVersion then -1
  else 0

/-- Modelled from the spec: whether comparator (c) of `compareValues`
(payload identity, spec section 4.1 step 4c) ties: both payloads present and
byte-wise equal, or some payload absent and the hashes equal. -/
def payloadStageTie (v1 v2 : Value) : Bool :=
  match v1.value, v2.value with
  | some p1, some p2 => p1 == p2
  | _, _ => v1.hash == v2.hash

/-- Modelled from the spec: `compareValues` (declared in KvStoreUtil.h lines
212-227; its body is not in the repository).  Comparators are applied in
strict lexicographic order with short-circuit on the first non-equal one:
`version` (larger wins), `originator_id` (lexicographically larger wins),
payload identity (byte-wise larger wins when both present; some payload
absent ties when the hashes are equal and is unknown otherwise), then
`ttl_version` (larger wins).  Returns 1 when v1 is better, -1 when v2 is
better, 0 when equal, -2 when unknown. -/
def compareValues (v1 v2 : Value) : Int :=
  if v1.version ≠ v2.version then
    if v2.version < v1.version then 1 else -1
  else if v1.originatorId ≠ v2.originatorId then
    if v2.originatorId.data < v1.originatorId.data then 1 else -1
  else
    match v1.value, v2.value with
    | some p1, some p2 =>
        if p1 ≠ p2 then
          if p2.data < p1.data then 1 else -1
        else compareTtlVersion v1 v2
    | _, _ =>
        if v1.hash = v2.hash then compareTtlVersion v1 v2 else -2

/-- The thrift `FilterOperator` combinator (AND / OR). -/
inductive FilterOperator where
  | OR
  | AND
deriving DecidableEq, Repr

/-- Modelled from the spec: `KvStoreFilters` (class declared in KvStoreUtil.h
lines 19-58; its implementation is not in the repository).  A filter is a
pair of a key-pattern list and an originator-id set with a combinator
(spec section 4.4).  Regex patterns are modelled as literal patterns with
anchored (prefix) matching, as in the header comment "list of comma separated
key prefixes to match". -/
structure KvStoreFilters where
  keyPrefixList : List String
  originatorIds : List String
  filterOperator : FilterOperator
deriving DecidableEq, Repr

/-- Modelled from the spec: anchored key matching; an empty pattern list
matches every key (spec section 4.4). -/
def KvStoreFilters.keyRegexMatch (f : KvStoreFilters) (key : String) : Bool :=
  f.keyPrefixList.isEmpty || f.keyPrefixList.any (fun p => p.isPrefixOf key)

/-- Modelled from the spec: originator matching; an empty originator set
matches every originator (spec section 4.4). -/
def KvStoreFilters.originatorMatch (f : KvStoreFilters) (v : Value) : Bool :=
  f.originatorIds.isEmpty || f.originatorIds.contains v.originatorId

/-- Modelled from the spec: `KvStoreFilters::keyMatchAny` (KvStoreUtil.h line
30): under OR, either the key match or the originator match suffices. -/
def KvStoreFilters.keyMatchAny (f : KvStoreFilters) (key : String) (v : Value) : Bool :=
  f.keyRegexMatch key || f.originatorMatch v

/-- Modelled from the spec: `KvStoreFilters::keyMatchAll` (KvStoreUtil.h line
33): under AND, both the key match and the originator match must hold. -/
def KvStoreFilters.keyMatchAll (f : KvStoreFilters) (key : String) (v : Value) : Bool :=
  f.keyRegexMatch key && f.originatorMatch v

/-- Modelled from the spec: `KvStoreFilters::keyMatch` (KvStoreUtil.h line
35), dispatching on the configured combinator. -/
def KvStoreFilters.keyMatch (f : KvStoreFilters) (key : String) (v : Value) : Bool :=
  match f.filterOperator with
  | .OR => f.keyMatchAny key v
  | .AND => f.keyMatchAll key v

/-- `KvStoreNoMergeReason` (KvStoreUtil.h lines 167-172): why an incoming
key-value was not merged. -/
inductive KvStoreNoMergeReason where
  | NO_MATCHED_KEY
  | INVALID_TTL
  | OLD_VERSION
  | NO_NEED_TO_UPDATE
deriving DecidableEq, Repr

/-- `KvStoreNoMergeReasonStats` (KvStoreUtil.h lines 174-187): the per-key
reason map and the per-reason statistics returned by `mergeKeyValues`. -/
structure KvStoreNoMergeReasonStats where
  noMergeReasons : List (String × KvStoreNoMergeReason)
  numberOfNoMatchedKeys : Nat
  listInvalidTtls : List Int
  listOldVersions : List Nat
  numberOfNoNeedToUpdates : Nat
deriving DecidableEq, Repr

/-- The empty statistics record (all fields default-initialized, as in the
C++ struct). -/
def emptyStats : KvStoreNoMergeReasonStats :=
  ⟨[], 0, [], [], 0⟩

/-- Record a rejection in the statistics: the per-key reason map always gets
the entry, and the per-reason bucket is updated (KvStoreUtil.h lines 174-187;
spec section 4.1, Statistics). -/
def recordReason (s : KvStoreNoMergeReasonStats) (key : String) (incoming : Value)
    (r : KvStoreNoMergeReason) : KvStoreNoMergeReasonStats :=
  match r with
  | .NO_MATCHED_KEY =>
      { s with noMergeReasons := s.noMergeReasons ++ [(key, r)],
               numberOfNoMatchedKeys := s.numberOfNoMatchedKeys + 1 }
  | .INVALID_TTL =>
      { s with noMergeReasons := s.noMergeReasons ++ [(key, r)],
               listInvalidTtls := s.listInvalidTtls ++ [incoming.ttl] }
  | .OLD_VERSION =>
      { s with noMergeReasons := s.noMergeReasons ++ [(key, r)],
               listOldVersions := s.listOldVersions ++ [incoming.version] }
  | .NO_NEED_TO_UPDATE =>
      { s with noMergeReasons := s.noMergeReasons ++ [(key, r)],
               numberOfNoNeedToUpdates := s.numberOfNoNeedToUpdates + 1 }

/-- Whether the optional filter admits the pair (spec section 4.1 step 1);
no filter admits everything. -/
def filterAllows (filters : Option KvStoreFilters) (key : String) (v : Value) : Bool :=
  match filters with
  | none => true
  | some f => f.keyMatch key v

/-- The per-entry decision of the merge engine: accept (with the value to
store and whether the change is TTL-only) or reject with a reason. -/
inductive MergeOutcome where
  | accepted (newVal : Value) (ttlOnly : Bool)
  | rejected (reason : KvStoreNoMergeReason)
deriving DecidableEq, Repr

/-- Modelled from the spec: the per-entry decision of `mergeKeyValues`
(declared in KvStoreUtil.h lines 204-210; its body is not in the repository),
following spec section 4.1 steps 1-7: filter check, TTL floor check, accept
unconditionally when the key is new, otherwise decide by `compareValues`;
a win on comparator (d) only updates `ttl_ms` and `ttl_version` in place and
is marked TTL-only.  The spec leaves the diagnostic bucket for an unknown
comparison as an implementer decision (spec section 9); it is a non-merge and
is bucketed with NO_NEED_TO_UPDATE here. -/
def mergeDecision (filters : Option KvStoreFilters) (current : Option Value)
    (key : String) (incoming : Value) : MergeOutcome :=
  if filterAllows filters key incoming = false then
    .rejected .NO_MATCHED_KEY
  else if incoming.ttl ≠ kTtlInfinity ∧ incoming.ttl < kTtlThreshold then
    .rejected .INVALID_TTL
  else
    match current with
    | none => .accepted incoming false
    | some cur =>
        if compareValues cur incoming = -1 then
          if cur.version = incoming.version ∧ cur.originatorId = incoming.originatorId
              ∧ payloadStageTie cur incoming = true then
            .accepted { cur with ttl := incoming.ttl, ttlVersion := incoming.ttlVersion } true
          else
            .accepted incoming false
        else if compareValues cur incoming = 1 then
          .rejected .OLD_VERSION
        else
          .rejected .NO_NEED_TO_UPDATE

/-- Point update of the value table at one key. -/
def setKey (s : String → Option Value) (k : String) (v : Value) :
    String → Option Value :=
  fun k' => if k' = k then some v else s k'

/-- The running state of one `mergeKeyValues` call: the value table, the
effective delta (each entry with its TTL-only mark), and the statistics. -/
structure MergeResult where
  kvStore : String → Option Value
  kvUpdates : List (String × Value × Bool)
  stats : KvStoreNoMergeReasonStats

/-- One step of the merge engine on one batch entry. -/
def mergeStep (filters : Option KvStoreFilters) (st : MergeResult)
    (e : String × Value) : MergeResult :=
  match mergeDecision filters (st.kvStore e.1) e.1 e.2 with
  | .accepted newVal ttlOnly =>
      { st with kvStore := setKey st.kvStore e.1 newVal,
                kvUpdates := st.kvUpdates ++ [(e.1, newVal, ttlOnly)] }
  | .rejected r =>
      { st with stats := recordReason st.stats e.1 e.2 r }

/-- Modelled from the spec: `mergeKeyValues` (declared in KvStoreUtil.h lines
204-210; its body is not in the repository): process the incoming batch
against the value table, producing the merged table, the effective delta and
the rejection statistics (spec section 4.1). -/
def mergeKeyValues (kvStore : String → Option Value)
    (keyVals : List (String × Value))
    (filters : Option KvStoreFilters) : MergeResult :=
  keyVals.foldl (mergeStep filters) ⟨kvStore, [], emptyStats⟩

/-- Modelled from the spec: the wire publication, reduced to the fields the
claims touch: the area tag and the key-value map (spec section 3). -/
structure Publication where
  area : String
  keyVals : List (String × Value)
deriving DecidableEq, Repr

/-- Key lookup in an association-list map. -/
def lookupKey (m : List (String × Value)) (k : String) : Option Value :=
  (m.find? (fun e => e.1 == k)).map (fun e => e.2)

/-- Modelled from the spec: `dumpDifference` (declared in KvStoreUtil.h lines
229-233; its body is not in the repository), following the dump-difference
algorithm of spec section 4.2: produce the keys of the local map absent from
the requested map, together with the keys present in both whose hashes
differ. -/
def dumpDifference (area : String) (myKeyVal reqKeyVal : List (String × Value)) :
    Publication :=
  ⟨area, myKeyVal.filter (fun e =>
    match lookupKey reqKeyVal e.1 with
    | none => true
    | some r => e.2.hash != r.hash)⟩

/-- Modelled from the spec: a TTL countdown queue entry, one of the
"(deadline, key, ttl_version) triples" of spec section 4.3.  Times are in
milliseconds. -/
structure TtlCountdownQueueEntry where
  expiryTime : Int
  key : String
  ttlVersion : Nat
deriving DecidableEq, Repr

/-- Find the countdown-queue entry for a key at a given ttl_version. -/
def findQueueEntry (q : List TtlCountdownQueueEntry) (key : String)
    (ttlVersion : Nat) : Option TtlCountdownQueueEntry :=
  q.find? (fun e => e.key == key && e.ttlVersion == ttlVersion)

/-- Modelled from the spec: `updatePublicationTtl` (declared in KvStoreUtil.h
lines 249-254; its body is not in the repository), following the countdown
adjustment of spec section 4.3: each outgoing value whose countdown-queue
entry is found gets `ttl_ms := deadline - now - ttlDecr` (its ttl at
insertion, decremented by the elapsed time since insertion and by the fixed
TTL-decrement constant); if the result falls below the threshold the key is
erased from the publication.  Values without a queue entry are left as they
are. -/
def updatePublicationTtl (ttlCountdownQueue : List TtlCountdownQueueEntry)
    (ttlDecr : Int) (now : Int) (pub : Publication) : Publication :=
  ⟨pub.area, pub.keyVals.filterMap (fun e =>
    match findQueueEntry ttlCountdownQueue e.1 e.2.ttlVersion with
    | none => some e
    | some q =>
        let newTtl := q.expiryTime - now - ttlDecr
        if newTtl < kTtlThreshold then none
        else some (e.1, { e.2 with ttl := newTtl }))⟩

/-- Modelled from the spec: the Publisher Registry delivery rule of spec
section 4.4 for one subscriber whose filter matches everything and whose
`suppress_payload` flag is false, applied to one effective delta.  An entry
marked TTL-only is dropped when the subscriber's `ignore_ttl` flag is set,
and is delivered with the payload suppressed otherwise; full entries are
delivered as they are. -/
def deliverToSubscriber (ignoreTtl : Bool) (delta : List (String × Value × Bool)) :
    List (String × Value) :=
  delta.filterMap (fun e =>
    if e.2.2 then
      if ignoreTtl then none else some (e.1, { e.2.1 with value := none })
    else some (e.1, e.2.1))

/-- `OpenrCtrlHandler::authorizeConnection` (OpenrCtrlHandlerTest.cpp lines
1961-1994): when the peer common name is empty or the whitelist of acceptable
peer common names is empty, the connection is admitted and the event only
logged; otherwise a peer common name outside the whitelist raises an error. -/
def authorizeConnection (peerCommonName : String)
    (acceptablePeerCommonNames : List String) : Except String Unit :=
  if peerCommonName = "" ∨ acceptablePeerCommonNames = [] then
    Except.ok ()
  else if ¬ acceptablePeerCommonNames.contains peerCommonName then
    Except.error ("Peer name " ++ peerCommonName ++ " is unacceptable")
  else
    Except.ok ()

/-- A ttl that passes the merge validation of spec section 4.1 step 2: the
infinity sentinel, or at least the configured floor. -/
def ttlValid (v : Value) : Prop :=
  v.ttl = kTtlInfinity ∨ kTtlThreshold ≤ v.ttl

/-- The empty value table. -/
def emptyStore : String → Option Value := fun _ => none

/-- A concrete entry whose ttl (0 ms) is below the floor. -/
def lowTtlVal : Value := ⟨1, "node1", some "value1", 0, 1, 0⟩

/-- The stored value the C3 counterexample starts from. -/
def mono_old : Value := ⟨1, "n", some "a", 30000, 5, 10⟩

/-- The incoming value of the C3 counterexample: equal version and
originator, byte-wise larger payload, smaller ttl_version. -/
def mono_new : Value := ⟨1, "n", some "b", 30000, 1, 11⟩

/-- A value table holding the C3 counterexample's starting value. -/
def monoStore : String → Option Value :=
  fun k => if k = "k" then some mono_old else none

/-- The first C4 counterexample value: payload absent, hash 1. -/
def unknown_v1 : Value := ⟨1, "n", none, 30000, 1, 1⟩

/-- The second C4 counterexample value: payload absent, hash 2, so its
comparison with `unknown_v1` is unknown. -/
def unknown_v2 : Value := ⟨1, "n", none, 30000, 1, 2⟩

/-- The originator tie-break example of the spec: version 5 from nodeA. -/
def tieA : Value := ⟨5, "nodeA", some "vA", 30000, 1, 1⟩

/-- The originator tie-break example of the spec: version 5 from nodeB. -/
def tieB : Value := ⟨5, "nodeB", some "vB", 30000, 1, 2⟩

/-- A value compare-equal to `ttlpair_v2` but with a different `ttl_ms`:
the first arrival is kept, so which record is stored depends on order. -/
def ttlpair_v1 : Value := ⟨1, "n", some "p", 30000, 1, 7⟩

/-- The partner of `ttlpair_v1`: same version, originator, payload,
ttl_version and hash, larger `ttl_ms`. -/
def ttlpair_v2 : Value := ⟨1, "n", some "p", 50000, 1, 7⟩

/-- A payload-bearing value whose hash collides with `coll_b`'s. -/
def coll_a : Value := ⟨1, "n", some "a", 30000, 0, 1⟩

/-- A byte-wise larger payload under the same colliding hash. -/
def coll_b : Value := ⟨1, "n", some "b", 30000, 0, 1⟩

/-- A payload-less TTL refresh (ttl_version 5) under the colliding hash:
it compares defined against both `coll_a` and `coll_b`. -/
def coll_y : Value := ⟨1, "n", none, 30000, 5, 1⟩

/-- A value table already holding `coll_a` at key "k". -/
def collStore : String → Option Value :=
  fun k => if k = "k" then some coll_a else none

/-- The nodeB value of the tie-break example with an invalid (0 ms) ttl:
despite the lexicographically larger originator it is never stored. -/
def tieBlowTtl : Value := ⟨5, "nodeB", some "vB", 0, 1, 2⟩

/-- A concrete batch for the idempotence witness. -/
def idemVal : Value := ⟨2, "node1", some "value1", 30000, 1, 3⟩

/-- The local value of the C6 counterexample (version 1). -/
def diff_local : Value := ⟨1, "n", some "a", 30000, 1, 10⟩

/-- The requested value of the C6 counterexample (version 2, hash differs,
strictly better than the local one). -/
def diff_req : Value := ⟨2, "n", some "a", 30000, 1, 20⟩

/-- The publication entry used by the C8 witness: ttl 30000 ms, inserted at
time 5000 so its deadline is 35000. -/
def pubVal : Value := ⟨1, "node1", some "value1", 30000, 1, 4⟩

/-- The countdown-queue of the C8 witness. -/
def witnessQueue : List TtlCountdownQueueEntry := [⟨35000, "k", 1⟩]

/-- The publication of the C8 witness. -/
def witnessPub : Publication := ⟨"area0", [("k", pubVal)]⟩

/-- The stored value of the C9 witness, mirroring the ctrl-handler test:
key1 from node1 with payload "value1", ttl 30000, ttl_version 5. -/
def ttlCur : Value := ⟨1, "node1", some "value1", 30000, 5, 0⟩

/-- The incoming TTL refresh of the C9 witness: payload absent, matching
hash, ttl 50000, ttl_version 6. -/
def ttlInc : Value := ⟨1, "node1", none, 50000, 6, 0⟩

/-- The one-key value table of the C9 witness. -/
def ttlStore : String → Option Value :=
  fun k => if k = "key1" then some ttlCur else none

/-! ### Basic properties of the comparison function -/

theorem compareTtlVersion_self (v : Value) : compareTtlVersion v v = 0 := by
  simp [compareTtlVersion]

theorem compareTtlVersion_antisymm (v1 v2 : Value) :
    compareTtlVersion v2 v1 = -compareTtlVersion v1 v2 := by
  unfold compareTtlVersion
  rcases Nat.lt_trichotomy v1.ttlVersion v2.ttlVersion with h | h | h
  · simp [h, Nat.lt_asymm h]
  · simp [h]
  · simp [h, Nat.lt_asymm h]

theorem compareTtlVersion_ne_unknown (v1 v2 : Value) :
    compareTtlVersion v1 v2 ≠ -2 := by
  unfold compareTtlVersion
  split
  · decide
  · split
    · decide
    · decide

theorem payloadStageTie_self (v : Value) : payloadStageTie v v = true := by
  unfold payloadStageTie
  cases v.value <;> simp

theorem payloadStageTie_symm (v1 v2 : Value) (h : payloadStageTie v1 v2 = true) :
    payloadStageTie v2 v1 = true := by
  unfold payloadStageTie at h ⊢
  cases h1 : v1.value <;> cases h2 : v2.value <;> simp_all

theorem compareValues_self (v : Value) : compareValues v v = 0 := by
  unfold compareValues
  cases h : v.value <;> simp [h, compareTtlVersion_self]

theorem compareValues_of_tie (v1 v2 : Value) (h1 : v1.version = v2.version)
    (h2 : v1.originatorId = v2.originatorId) (h3 : payloadStageTie v1 v2 = true) :
    compareValues v1 v2 = compareTtlVersion v1 v2 := by
  unfold compareValues
  unfold payloadStageTie at h3
  cases ha : v1.value <;> cases hb : v2.value <;>
    simp_all

theorem compareValues_antisymm (v1 v2 : Value) :
    compareValues v2 v1 =
      if compareValues v1 v2 = -2 then -2 else -compareValues v1 v2 := by
  unfold compareValues
  rcases Nat.lt_trichotomy v1.version v2.version with hv | hv | hv
  · have h1 : v1.version ≠ v2.version := Nat.ne_of_lt hv
    simp [h1, h1.symm, Nat.lt_asymm hv, hv]
  · rcases lt_trichotomy v1.originatorId.data v2.originatorId.data with ho | ho | ho
    · have h1 : v1.originatorId ≠ v2.originatorId :=
        fun e => absurd (congrArg String.data e) (ne_of_lt ho)
      simp [hv, h1, h1.symm, not_lt_of_lt ho, ho]
    · have ho2 : v1.originatorId = v2.originatorId := String.ext ho
      rw [hv, ho2]
      simp only [ne_eq, not_true_eq_false, if_false, ite_false]
      cases ha : v1.value <;> cases hb : v2.value
      · by_cases hh : v1.hash = v2.hash
        · simp [hh, compareTtlVersion_antisymm v1 v2,
            compareTtlVersion_ne_unknown v1 v2]
        · have hh2 : ¬ v2.hash = v1.hash := fun e => hh e.symm
          simp [hh, hh2]
      · by_cases hh : v1.hash = v2.hash
        · simp [hh, compareTtlVersion_antisymm v1 v2,
            compareTtlVersion_ne_unknown v1 v2]
        · have hh2 : ¬ v2.hash = v1.hash := fun e => hh e.symm
          simp [hh, hh2]
      · by_cases hh : v1.hash = v2.hash
        · simp [hh, compareTtlVersion_antisymm v1 v2,
            compareTtlVersion_ne_unknown v1 v2]
        · have hh2 : ¬ v2.hash = v1.hash := fun e => hh e.symm
          simp [hh, hh2]
      · rename_i p1 p2
        rcases lt_trichotomy p1.data p2.data with hp | hp | hp
        · have h1 : p1 ≠ p2 :=
            fun e => absurd (congrArg String.data e) (ne_of_lt hp)
          simp [h1, h1.symm, not_lt_of_lt hp, hp]
        · have hp2 : p1 = p2 := String.ext hp
          rw [hp2]
          simp [compareTtlVersion_antisymm v1 v2, compareTtlVersion_ne_unknown v1 v2]
        · have h1 : p1 ≠ p2 :=
            fun e => absurd (congrArg String.data e) (Ne.symm (ne_of_lt hp))
          simp [h1, h1.symm, not_lt_of_lt hp, hp]
    · have h1 : v1.originatorId ≠ v2.originatorId :=
        fun e => absurd (congrArg String.data e) (Ne.symm (ne_of_lt ho))
      simp [hv, h1, h1.symm, not_lt_of_lt ho, ho]
  · have h1 : v1.version ≠ v2.version := (Nat.ne_of_lt hv).symm
    simp [h1, h1.symm, Nat.lt_asymm hv, hv]

theorem compareValues_flip_neg_one (v1 v2 : Value)
    (h : compareValues v1 v2 = -1) : compareValues v2 v1 = 1 := by
  rw [compareValues_antisymm, h]
  norm_num

theorem compareValues_neg_one_version_le (v1 v2 : Value)
    (h : compareValues v1 v2 = -1) : v1.version ≤ v2.version := by
  by_contra hlt
  push_neg at hlt
  have h1 : v1.version ≠ v2.version := (Nat.ne_of_lt hlt).symm
  unfold compareValues at h
  rw [if_pos h1, if_pos hlt] at h
  norm_num at h

theorem compareValues_unknown_symm (v1 v2 : Value)
    (h : compareValues v1 v2 = -2) : compareValues v2 v1 = -2 := by
  rw [compareValues_antisymm, h]
  norm_num

/-! ### Frame and fold lemmas for the merge engine -/

theorem mergeStep_store_ne (f : Option KvStoreFilters) (st : MergeResult)
    (e : String × Value) (k : String) (h : k ≠ e.1) :
    (mergeStep f st e).kvStore k = st.kvStore k := by
  unfold mergeStep
  cases hd : mergeDecision f (st.kvStore e.1) e.1 e.2 <;> simp [hd, setKey, h]

theorem mergeStep_store_self (f : Option KvStoreFilters) (st : MergeResult)
    (e : String × Value) :
    (mergeStep f st e).kvStore e.1 =
      match mergeDecision f (st.kvStore e.1) e.1 e.2 with
      | .accepted w _ => some w
      | .rejected _ => st.kvStore e.1 := by
  unfold mergeStep
  cases hd : mergeDecision f (st.kvStore e.1) e.1 e.2 <;> simp [hd, setKey]

theorem mergeStep_updates (f : Option KvStoreFilters) (st : MergeResult)
    (e : String × Value) :
    (mergeStep f st e).kvUpdates =
      match mergeDecision f (st.kvStore e.1) e.1 e.2 with
      | .accepted w b => st.kvUpdates ++ [(e.1, w, b)]
      | .rejected _ => st.kvUpdates := by
  unfold mergeStep
  cases hd : mergeDecision f (st.kvStore e.1) e.1 e.2 <;> simp [hd]

theorem recordReason_reasons (s : KvStoreNoMergeReasonStats) (key : String)
    (incoming : Value) (r : KvStoreNoMergeReason) :
    (recordReason s key incoming r).noMergeReasons = s.noMergeReasons ++ [(key, r)] := by
  cases r <;> rfl

theorem mergeStep_reasons (f : Option KvStoreFilters) (st : MergeResult)
    (e : String × Value) :
    (mergeStep f st e).stats.noMergeReasons =
      match mergeDecision f (st.kvStore e.1) e.1 e.2 with
      | .accepted _ _ => st.stats.noMergeReasons
      | .rejected r => st.stats.noMergeReasons ++ [(e.1, r)] := by
  unfold mergeStep
  cases hd : mergeDecision f (st.kvStore e.1) e.1 e.2 <;>
    simp [hd, recordReason_reasons]

theorem recordReason_invalidTtls (s : KvStoreNoMergeReasonStats) (key : String)
    (incoming : Value) (r : KvStoreNoMergeReason) :
    (recordReason s key incoming r).listInvalidTtls =
      if r = .INVALID_TTL then s.listInvalidTtls ++ [incoming.ttl]
      else s.listInvalidTtls := by
  cases r <;> rfl

theorem mergeStep_invalidTtls (f : Option KvStoreFilters) (st : MergeResult)
    (e : String × Value) :
    (mergeStep f st e).stats.listInvalidTtls =
      if mergeDecision f (st.kvStore e.1) e.1 e.2 = .rejected .INVALID_TTL
      then st.stats.listInvalidTtls ++ [e.2.ttl]
      else st.stats.listInvalidTtls := by
  unfold mergeStep
  cases hd : mergeDecision f (st.kvStore e.1) e.1 e.2 with
  | accepted w b => simp [hd]
  | rejected r =>
      cases r <;> simp [hd, recordReason_invalidTtls]

theorem merge_foldl_store_notmem (f : Option KvStoreFilters)
    (B : List (String × Value)) :
    ∀ (st : MergeResult) (k : String), k ∉ B.map Prod.fst →
      (B.foldl (mergeStep f) st).kvStore k = st.kvStore k := by
  induction B with
  | nil => intro st k _; rfl
  | cons e B ih =>
      intro st k h
      simp only [List.map_cons, List.mem_cons] at h
      push_neg at h
      rw [List.foldl_cons, ih _ _ h.2, mergeStep_store_ne f st e k h.1]

theorem mergeStep_reason_mem_iff (f : Option KvStoreFilters) (st : MergeResult)
    (e : String × Value) (k : String) (r : KvStoreNoMergeReason) :
    ((k, r) ∈ (mergeStep f st e).stats.noMergeReasons ↔
      (k, r) ∈ st.stats.noMergeReasons ∨
        (k = e.1 ∧ mergeDecision f (st.kvStore e.1) e.1 e.2 = .rejected r)) := by
  rw [mergeStep_reasons]
  cases hd : mergeDecision f (st.kvStore e.1) e.1 e.2 with
  | accepted w b => simp [hd]
  | rejected r' =>
      simp only [List.mem_append, List.mem_singleton, Prod.mk.injEq,
        MergeOutcome.rejected.injEq]
      constructor
      · rintro (h | ⟨h1, h2⟩)
        · exact Or.inl h
        · exact Or.inr ⟨h1, h2.symm⟩
      · rintro (h | ⟨h1, h2⟩)
        · exact Or.inl h
        · exact Or.inr ⟨h1, h2.symm⟩

theorem merge_foldl_reason_notmem (f : Option KvStoreFilters)
    (B : List (String × Value)) :
    ∀ (st : MergeResult) (k : String) (r : KvStoreNoMergeReason),
      k ∉ B.map Prod.fst →
      ((k, r) ∈ (B.foldl (mergeStep f) st).stats.noMergeReasons ↔
        (k, r) ∈ st.stats.noMergeReasons) := by
  induction B with
  | nil => intro st k r _; rfl
  | cons e B ih =>
      intro st k r h
      simp only [List.map_cons, List.mem_cons] at h
      push_neg at h
      rw [List.foldl_cons, ih _ _ _ h.2, mergeStep_reason_mem_iff]
      simp [h.1]

theorem mergeStep_invalidTtls_mono (f : Option KvStoreFilters) (st : MergeResult)
    (e : String × Value) (t : Int) (h : t ∈ st.stats.listInvalidTtls) :
    t ∈ (mergeStep f st e).stats.listInvalidTtls := by
  rw [mergeStep_invalidTtls]
  split
  · exact List.mem_append_left _ h
  · exact h

theorem merge_foldl_invalidTtls_mono (f : Option KvStoreFilters)
    (B : List (String × Value)) :
    ∀ (st : MergeResult) (t : Int), t ∈ st.stats.listInvalidTtls →
      t ∈ (B.foldl (mergeStep f) st).stats.listInvalidTtls := by
  induction B with
  | nil => intro st t h; exact h
  | cons e B ih =>
      intro st t h
      exact ih _ _ (mergeStep_invalidTtls_mono f st e t h)

theorem merge_foldl_reason_mono (f : Option KvStoreFilters)
    (B : List (String × Value)) :
    ∀ (st : MergeResult) (x : String × KvStoreNoMergeReason),
      x ∈ st.stats.noMergeReasons →
      x ∈ (B.foldl (mergeStep f) st).stats.noMergeReasons := by
  induction B with
  | nil => intro st x h; exact h
  | cons e B ih =>
      intro st x h
      refine ih _ _ ?_
      rw [mergeStep_reasons]
      split
      · exact h
      · exact List.mem_append_left _ h

theorem mergeStep_updates_sub (f : Option KvStoreFilters) (st : MergeResult)
    (e : String × Value) (u : String × Value × Bool)
    (h : u ∈ (mergeStep f st e).kvUpdates) : u ∈ st.kvUpdates ∨ u.1 = e.1 := by
  rw [mergeStep_updates] at h
  revert h
  split
  · intro h
    rcases List.mem_append.mp h with h | h
    · exact Or.inl h
    · simp only [List.mem_singleton] at h
      subst h
      exact Or.inr rfl
  · exact fun h => Or.inl h

theorem merge_foldl_updates_sub (f : Option KvStoreFilters)
    (B : List (String × Value)) :
    ∀ (st : MergeResult) (u : String × Value × Bool),
      u ∈ (B.foldl (mergeStep f) st).kvUpdates →
      u ∈ st.kvUpdates ∨ u.1 ∈ B.map Prod.fst := by
  induction B with
  | nil => intro st u h; exact Or.inl h
  | cons e B ih =>
      intro st u h
      rcases ih _ _ h with h' | h'
      · rcases mergeStep_updates_sub f st e u h' with h'' | h''
        · exact Or.inl h''
        · exact Or.inr (by simp [h''])
      · exact Or.inr (by simp [h'])

theorem merge_foldl_updates_mono (f : Option KvStoreFilters)
    (B : List (String × Value)) :
    ∀ (st : MergeResult) (u : String × Value × Bool),
      u ∈ st.kvUpdates → u ∈ (B.foldl (mergeStep f) st).kvUpdates := by
  induction B with
  | nil => intro st u h; exact h
  | cons e B ih =>
      intro st u h
      refine ih _ _ ?_
      rw [mergeStep_updates]
      split
      · exact List.mem_append_left _ h
      · exact h

theorem nodup_keys_split (B1 B2 : List (String × Value)) (k : String) (v : Value)
    (hnd : ((B1 ++ (k, v) :: B2).map Prod.fst).Nodup) :
    k ∉ B1.map Prod.fst ∧ k ∉ B2.map Prod.fst := by
  rw [List.map_append, List.map_cons, List.nodup_append] at hnd
  obtain ⟨_, hn2, hdisj⟩ := hnd
  refine ⟨fun hx => hdisj hx (List.mem_cons_self _ _), ?_⟩
  exact (List.nodup_cons.mp hn2).1

/-- The value table after a merge, at a key carried by the batch: the result
of the per-entry decision against the pre-merge table. -/
theorem mergeKeyValues_store_mem (s : String → Option Value)
    (B : List (String × Value)) (f : Option KvStoreFilters) (k : String) (v : Value)
    (hnd : (B.map Prod.fst).Nodup) (hmem : (k, v) ∈ B) :
    (mergeKeyValues s B f).kvStore k =
      match mergeDecision f (s k) k v with
      | .accepted w _ => some w
      | .rejected _ => s k := by
  obtain ⟨B1, B2, rfl⟩ := List.append_of_mem hmem
  obtain ⟨hk1, hk2⟩ := nodup_keys_split B1 B2 k v hnd
  unfold mergeKeyValues
  rw [List.foldl_append, List.foldl_cons]
  rw [merge_foldl_store_notmem f B2 _ _ hk2]
  have h1 : (B1.foldl (mergeStep f) ⟨s, [], emptyStats⟩).kvStore k = s k :=
    merge_foldl_store_notmem f B1 _ _ hk1
  rw [mergeStep_store_self, h1]

/-- The value table after a merge, at a key the batch does not carry. -/
theorem mergeKeyValues_store_notmem (s : String → Option Value)
    (B : List (String × Value)) (f : Option KvStoreFilters) (k : String)
    (h : k ∉ B.map Prod.fst) : (mergeKeyValues s B f).kvStore k = s k :=
  merge_foldl_store_notmem f B _ _ h

/-- The per-key reason map after a merge, at a key carried by the batch:
exactly the rejection reason of the per-entry decision against the pre-merge
table. -/
theorem mergeKeyValues_reason_mem (s : String → Option Value)
    (B : List (String × Value)) (f : Option KvStoreFilters) (k : String) (v : Value)
    (r : KvStoreNoMergeReason)
    (hnd : (B.map Prod.fst).Nodup) (hmem : (k, v) ∈ B) :
    ((k, r) ∈ (mergeKeyValues s B f).stats.noMergeReasons ↔
      mergeDecision f (s k) k v = .rejected r) := by
  obtain ⟨B1, B2, rfl⟩ := List.append_of_mem hmem
  obtain ⟨hk1, hk2⟩ := nodup_keys_split B1 B2 k v hnd
  unfold mergeKeyValues
  rw [List.foldl_append, List.foldl_cons]
  rw [merge_foldl_reason_notmem f B2 _ _ _ hk2, mergeStep_reason_mem_iff]
  have h1 : (B1.foldl (mergeStep f) ⟨s, [], emptyStats⟩).kvStore k = s k :=
    merge_foldl_store_notmem f B1 _ _ hk1
  rw [merge_foldl_reason_notmem f B1 _ _ _ hk1, h1]
  simp [emptyStats]

/-- Every ttl recorded in `listInvalidTtls` is a real violation: not the
infinity sentinel and strictly below the floor. -/
theorem mergeDecision_invalid_ttl_inv (f : Option KvStoreFilters)
    (cur : Option Value) (k : String) (v : Value)
    (h : mergeDecision f cur k v = .rejected .INVALID_TTL) :
    v.ttl ≠ kTtlInfinity ∧ v.ttl < kTtlThreshold := by
  unfold mergeDecision at h
  by_cases h1 : filterAllows f k v = false
  · rw [if_pos h1] at h
    simp at h
  · rw [if_neg h1] at h
    by_cases h2 : v.ttl ≠ kTtlInfinity ∧ v.ttl < kTtlThreshold
    · exact h2
    · rw [if_neg h2] at h
      cases cur with
      | none => simp at h
      | some c =>
          simp only [] at h
          split_ifs at h <;> simp_all

theorem mergeKeyValues_invalidTtls_sound (s : String → Option Value)
    (B : List (String × Value)) (f : Option KvStoreFilters) :
    ∀ t ∈ (mergeKeyValues s B f).stats.listInvalidTtls,
      t ≠ kTtlInfinity ∧ t < kTtlThreshold := by
  unfold mergeKeyValues
  have main : ∀ (B' : List (String × Value)) (st : MergeResult),
      (∀ t ∈ st.stats.listInvalidTtls, t ≠ kTtlInfinity ∧ t < kTtlThreshold) →
      ∀ t ∈ (B'.foldl (mergeStep f) st).stats.listInvalidTtls,
        t ≠ kTtlInfinity ∧ t < kTtlThreshold := by
    intro B'
    induction B' with
    | nil => intro st h; exact h
    | cons e B' ih =>
        intro st h
        refine ih _ ?_
        intro t ht
        rw [mergeStep_invalidTtls] at ht
        revert ht
        split
        · intro ht
          rcases List.mem_append.mp ht with h' | h'
          · exact h t h'
          · simp only [List.mem_singleton] at h'
            subst h'
            exact mergeDecision_invalid_ttl_inv f _ e.1 e.2 (by assumption)
        · intro ht
          exact h t ht
  exact main B ⟨s, [], emptyStats⟩ (by intro t ht; simp [emptyStats] at ht)

/-- Inversion of an accepting decision: the filter admitted the entry, the
TTL was valid, and either the key was new, or the incoming value strictly won
the comparison - as a TTL-only update exactly when comparators (a)-(c)
tied. -/
theorem mergeDecision_accepted_inv (f : Option KvStoreFilters)
    (cur : Option Value) (k : String) (v : Value) (w : Value) (b : Bool)
    (h : mergeDecision f cur k v = .accepted w b) :
    filterAllows f k v = true ∧ ¬(v.ttl ≠ kTtlInfinity ∧ v.ttl < kTtlThreshold) ∧
      ((cur = none ∧ w = v ∧ b = false) ∨
       (∃ c, cur = some c ∧ compareValues c v = -1 ∧
         ((c.version = v.version ∧ c.originatorId = v.originatorId ∧
             payloadStageTie c v = true ∧
             w = { c with ttl := v.ttl, ttlVersion := v.ttlVersion } ∧ b = true) ∨
          (¬(c.version = v.version ∧ c.originatorId = v.originatorId ∧
             payloadStageTie c v = true) ∧ w = v ∧ b = false)))) := by
  unfold mergeDecision at h
  by_cases h1 : filterAllows f k v = false
  · rw [if_pos h1] at h
    simp at h
  · rw [if_neg h1] at h
    refine ⟨by simpa using h1, ?_⟩
    by_cases h2 : v.ttl ≠ kTtlInfinity ∧ v.ttl < kTtlThreshold
    · rw [if_pos h2] at h
      simp at h
    · rw [if_neg h2] at h
      refine ⟨h2, ?_⟩
      cases cur with
      | none =>
          simp only [MergeOutcome.accepted.injEq] at h
          exact Or.inl ⟨rfl, h.1.symm, h.2.symm⟩
      | some c =>
          simp only [] at h
          refine Or.inr ⟨c, rfl, ?_⟩
          by_cases hc : compareValues c v = -1
          · rw [if_pos hc] at h
            refine ⟨hc, ?_⟩
            by_cases ht : c.version = v.version ∧ c.originatorId = v.originatorId ∧
                payloadStageTie c v = true
            · rw [if_pos ht] at h
              simp only [MergeOutcome.accepted.injEq] at h
              exact Or.inl ⟨ht.1, ht.2.1, ht.2.2, h.1.symm, h.2.symm⟩
            · rw [if_neg ht] at h
              simp only [MergeOutcome.accepted.injEq] at h
              exact Or.inr ⟨ht, h.1.symm, h.2.symm⟩
          · rw [if_neg hc] at h
            split_ifs at h

/-- Re-offering an entry that was just accepted is a no-op: the stored value
now compares equal to the incoming one, so the decision is
NO_NEED_TO_UPDATE. -/
theorem mergeDecision_second (f : Option KvStoreFilters) (cur : Option Value)
    (k : String) (v : Value) (w : Value) (b : Bool)
    (h : mergeDecision f cur k v = .accepted w b) :
    mergeDecision f (some w) k v = .rejected .NO_NEED_TO_UPDATE := by
  obtain ⟨hf, ht, hcases⟩ := mergeDecision_accepted_inv f cur k v w b h
  have hcmp : compareValues w v = 0 := by
    rcases hcases with ⟨_, hw, _⟩ | ⟨c, hc, hcv, hcase⟩
    · rw [hw]
      exact compareValues_self v
    · rcases hcase with ⟨h1, h2, h3, hw, _⟩ | ⟨_, hw, _⟩
      · have htie : payloadStageTie { c with ttl := v.ttl, ttlVersion := v.ttlVersion } v
            = true := by
          unfold payloadStageTie at h3 ⊢
          exact h3
        rw [hw]
        rw [compareValues_of_tie ({ c with ttl := v.ttl, ttlVersion := v.ttlVersion })
          v h1 h2 htie]
        unfold compareTtlVersion
        simp
      · rw [hw]
        exact compareValues_self v
  unfold mergeDecision
  rw [if_neg (by simp [hf]), if_neg ht]
  simp only []
  rw [if_neg (by rw [hcmp]; norm_num), if_neg (by rw [hcmp]; norm_num)]

/-- A fold in which every entry is rejected leaves the value table and the
effective delta untouched. -/
theorem merge_foldl_frozen (f : Option KvStoreFilters)
    (B : List (String × Value)) :
    ∀ (σ : String → Option Value) (d : List (String × Value × Bool))
      (st : KvStoreNoMergeReasonStats),
      (∀ e ∈ B, ∃ r, mergeDecision f (σ e.1) e.1 e.2 = .rejected r) →
      ((B.foldl (mergeStep f) ⟨σ, d, st⟩).kvStore = σ ∧
       (B.foldl (mergeStep f) ⟨σ, d, st⟩).kvUpdates = d) := by
  induction B with
  | nil => intro σ d st _; exact ⟨rfl, rfl⟩
  | cons e B ih =>
      intro σ d st h
      obtain ⟨r, hr⟩ := h e (List.mem_cons_self e B)
      have hstep : mergeStep f ⟨σ, d, st⟩ e = ⟨σ, d, recordReason st e.1 e.2 r⟩ := by
        unfold mergeStep
        simp [hr]
      rw [List.foldl_cons, hstep]
      exact ih σ d _ (fun e' he' => h e' (List.mem_cons_of_mem _ he'))

theorem compareTtlVersion_range (v1 v2 : Value) :
    compareTtlVersion v1 v2 = 1 ∨ compareTtlVersion v1 v2 = -1 ∨
      compareTtlVersion v1 v2 = 0 := by
  unfold compareTtlVersion
  split_ifs <;> simp

theorem compareValues_range (v1 v2 : Value) :
    compareValues v1 v2 = 1 ∨ compareValues v1 v2 = -1 ∨
      compareValues v1 v2 = 0 ∨ compareValues v1 v2 = -2 := by
  unfold compareValues
  rcases compareTtlVersion_range v1 v2 with hc | hc | hc <;>
  · by_cases h1 : v1.version ≠ v2.version
    · rw [if_pos h1]
      split_ifs <;> simp
    · rw [if_neg h1]
      by_cases h2 : v1.originatorId ≠ v2.originatorId
      · rw [if_pos h2]
        split_ifs <;> simp
      · rw [if_neg h2]
        cases v1.value with
        | none =>
            cases v2.value <;>
            · simp only []
              split_ifs <;> simp [hc]
        | some p1 =>
            cases v2.value with
            | none =>
                simp only []
                split_ifs <;> simp [hc]
            | some p2 =>
                simp only []
                by_cases hp : p1 ≠ p2
                · rw [if_pos hp]
                  split_ifs <;> simp
                · rw [if_neg hp]
                  simp [hc]

theorem compareValues_orig (v1 v2 : Value) (h1 : v1.version = v2.version)
    (h2 : v1.originatorId ≠ v2.originatorId) :
    compareValues v1 v2 =
      if v2.originatorId.data < v1.originatorId.data then 1 else -1 := by
  unfold compareValues
  rw [if_neg (by simp [h1]), if_pos h2]

theorem compareValues_flip_one (v1 v2 : Value)
    (h : compareValues v1 v2 = 1) : compareValues v2 v1 = -1 := by
  rw [compareValues_antisymm, h]
  norm_num

theorem compareValues_flip_zero (v1 v2 : Value)
    (h : compareValues v1 v2 = 0) : compareValues v2 v1 = 0 := by
  rw [compareValues_antisymm, h]
  norm_num

theorem mergeDecision_ttl_ok (v : Value) (hv : ttlValid v) :
    ¬(v.ttl ≠ kTtlInfinity ∧ v.ttl < kTtlThreshold) := by
  rcases hv with h | h
  · exact fun hc => hc.1 h
  · exact fun hc => absurd h (not_le.mpr hc.2)

/-- The merge decision with no filter, against a fresh key. -/
theorem mergeDecision_fresh (k : String) (v : Value) (hv : ttlValid v) :
    mergeDecision none none k v = .accepted v false := by
  unfold mergeDecision
  rw [if_neg (by simp [filterAllows]), if_neg (mergeDecision_ttl_ok v hv)]

/-- The merge decision with no filter, against a stored value. -/
theorem mergeDecision_cur (k : String) (c v : Value) (hv : ttlValid v) :
    mergeDecision none (some c) k v =
      if compareValues c v = -1 then
        if c.version = v.version ∧ c.originatorId = v.originatorId ∧
            payloadStageTie c v = true
        then .accepted { c with ttl := v.ttl, ttlVersion := v.ttlVersion } true
        else .accepted v false
      else if compareValues c v = 1 then .rejected .OLD_VERSION
      else .rejected .NO_NEED_TO_UPDATE := by
  unfold mergeDecision
  rw [if_neg (by simp [filterAllows]), if_neg (mergeDecision_ttl_ok v hv)]

/-- The merge decision with no filter on an entry whose ttl fails the
validation: rejected as INVALID_TTL whatever the current value is. -/
theorem mergeDecision_invalid (cur : Option Value) (k : String) (v : Value)
    (hv : ¬ ttlValid v) : mergeDecision none cur k v = .rejected .INVALID_TTL := by
  unfold ttlValid at hv
  push_neg at hv
  unfold mergeDecision
  rw [if_neg (by simp [filterAllows]), if_pos ⟨hv.1, hv.2⟩]

/-- The value table produced by a one-entry merge, as a function of the
decision. -/
theorem mergeKeyValues_single (s : String → Option Value) (k : String)
    (v : Value) (f : Option KvStoreFilters) :
    (mergeKeyValues s [(k, v)] f).kvStore =
      match mergeDecision f (s k) k v with
      | .accepted w _ => setKey s k w
      | .rejected _ => s := by
  unfold mergeKeyValues
  rw [List.foldl_cons, List.foldl_nil]
  unfold mergeStep
  cases hd : mergeDecision f (s k) k v <;> simp [hd]

theorem setKey_self (s : String → Option Value) (k : String) (v : Value) :
    setKey s k v k = some v := by
  simp [setKey]

/-- With no-duplicate keys, a key determines its value in an association
list. -/
theorem nodup_keys_unique {β : Type} (l : List (String × β)) (k : String)
    (v v' : β) (hnd : (l.map Prod.fst).Nodup)
    (h1 : (k, v) ∈ l) (h2 : (k, v') ∈ l) : v = v' := by
  obtain ⟨l1, l2, rfl⟩ := List.append_of_mem h1
  rw [List.map_append, List.map_cons, List.nodup_append] at hnd
  obtain ⟨_, hn2, hdisj⟩ := hnd
  have hk1 : k ∉ l1.map Prod.fst := fun hx => hdisj hx (List.mem_cons_self _ _)
  have hk2 : k ∉ l2.map Prod.fst := (List.nodup_cons.mp hn2).1
  rcases List.mem_append.mp h2 with h | h
  · exact absurd (List.mem_map.mpr ⟨(k, v'), h, rfl⟩) hk1
  · rcases List.mem_cons.mp h with h | h
    · exact (congrArg Prod.snd h).symm
    · exact absurd (List.mem_map.mpr ⟨(k, v'), h, rfl⟩) hk2

/-- A key whose entry is rejected never appears in the effective delta. -/
theorem mergeKeyValues_rejected_not_in_updates (s : String → Option Value)
    (B : List (String × Value)) (f : Option KvStoreFilters) (k : String)
    (v : Value) (hnd : (B.map Prod.fst).Nodup) (hmem : (k, v) ∈ B)
    (hrej : ∀ w b, mergeDecision f (s k) k v ≠ .accepted w b) :
    ∀ w b, (k, w, b) ∉ (mergeKeyValues s B f).kvUpdates := by
  intro w b hin
  obtain ⟨B1, B2, rfl⟩ := List.append_of_mem hmem
  obtain ⟨hk1, hk2⟩ := nodup_keys_split B1 B2 k v hnd
  unfold mergeKeyValues at hin
  rw [List.foldl_append, List.foldl_cons] at hin
  have hs1 : (B1.foldl (mergeStep f) ⟨s, [], emptyStats⟩).kvStore k = s k :=
    merge_foldl_store_notmem f B1 _ _ hk1
  rcases merge_foldl_updates_sub f B2 _ _ hin with h2' | h2'
  · rw [mergeStep_updates, hs1] at h2'
    cases hd : mergeDecision f (s k) k v with
    | accepted w' b' => exact hrej w' b' hd
    | rejected r =>
        rw [hd] at h2'
        rcases merge_foldl_updates_sub f B1 _ _ h2' with h3 | h3
        · simp at h3
        · exact hk1 h3
  · exact hk2 h2'

/-! ### Claim theorems -/

/-- C1: `compareValues(v1, v2)` decides the winner by comparing, in strict
lexicographic order with short-circuit on the first non-equal comparator:
version (larger wins), then originator id (lexicographically larger wins),
then payload (byte-wise larger wins when both present; equal when one payload
is absent but the hashes match, falling through to the next comparator;
unknown when both payloads are absent and the hashes differ), then
ttl_version (larger wins); it returns 1 when v1 is better, -1 when v2 is
better, 0 when equal, and -2 when unknown. -/
theorem compareValues_lexicographic (v1 v2 : Value) :
    (compareValues v1 v2 = 1 ∨ compareValues v1 v2 = -1 ∨
      compareValues v1 v2 = 0 ∨ compareValues v1 v2 = -2)
    ∧ (v1.version ≠ v2.version →
        compareValues v1 v2 = if v2.version < v1.version then 1 else -1)
    ∧ (v1.version = v2.version → v1.originatorId ≠ v2.originatorId →
        compareValues v1 v2 =
          if v2.originatorId.data < v1.originatorId.data then 1 else -1)
    ∧ (∀ p1 p2, v1.version = v2.version → v1.originatorId = v2.originatorId →
        v1.value = some p1 → v2.value = some p2 → p1 ≠ p2 →
        compareValues v1 v2 = if p2.data < p1.data then 1 else -1)
    ∧ (v1.version = v2.version → v1.originatorId = v2.originatorId →
        (v1.value = none ∨ v2.value = none) → v1.hash = v2.hash →
        compareValues v1 v2 =
          if v2.ttlVersion < v1.ttlVersion then 1
          else if v1.ttlVersion < v2.ttlVersion then -1 else 0)
    ∧ (∀ p, v1.version = v2.version → v1.originatorId = v2.originatorId →
        v1.value = some p → v2.value = some p →
        compareValues v1 v2 =
          if v2.ttlVersion < v1.ttlVersion then 1
          else if v1.ttlVersion < v2.ttlVersion then -1 else 0)
    ∧ (v1.version = v2.version → v1.originatorId = v2.originatorId →
        v1.value = none → v2.value = none → v1.hash ≠ v2.hash →
        compareValues v1 v2 = -2) := by
  refine ⟨compareValues_range v1 v2, ?_, ?_, ?_, ?_, ?_, ?_⟩
  · intro h
    unfold compareValues
    rw [if_pos h]
  · intro h1 h2
    unfold compareValues
    rw [if_neg (by simp [h1]), if_pos h2]
  · intro p1 p2 h1 h2 ha hb hne
    unfold compareValues
    rw [if_neg (by simp [h1]), if_neg (by simp [h2])]
    simp only [ha, hb]
    rw [if_pos hne]
  · intro h1 h2 hor hh
    unfold compareValues
    rw [if_neg (by simp [h1]), if_neg (by simp [h2])]
    rcases hor with ha | hb
    · cases hb : v2.value <;> simp_all [compareTtlVersion]
    · cases ha : v1.value <;> simp_all [compareTtlVersion]
  · intro p h1 h2 ha hb
    unfold compareValues
    rw [if_neg (by simp [h1]), if_neg (by simp [h2])]
    simp only [ha, hb]
    rw [if_neg (by simp)]
    rfl
  · intro h1 h2 ha hb hh
    unfold compareValues
    rw [if_neg (by simp [h1]), if_neg (by simp [h2])]
    simp only [ha, hb]
    rw [if_neg hh]

/-- C2: a batch entry whose ttl is below the configured floor (default 1 ms)
and is not the explicit infinity sentinel is rejected without modifying the
store for that key and without entering the effective delta; reason
INVALID_TTL is recorded for the key and the observed ttl is appended to
`listInvalidTtls`.  Conversely an entry whose ttl passes the validation (the
sentinel, or at or above the threshold) is never recorded as INVALID_TTL. -/
theorem mergeKeyValues_invalid_ttl (s : String → Option Value)
    (B : List (String × Value)) (k : String) (v : Value)
    (hnd : (B.map Prod.fst).Nodup) (hmem : (k, v) ∈ B)
    (hinf : v.ttl ≠ kTtlInfinity) (hlow : v.ttl < kTtlThreshold) :
    ((mergeKeyValues s B none).kvStore k = s k
      ∧ (∀ w b, (k, w, b) ∉ (mergeKeyValues s B none).kvUpdates)
      ∧ (k, KvStoreNoMergeReason.INVALID_TTL) ∈
          (mergeKeyValues s B none).stats.noMergeReasons
      ∧ v.ttl ∈ (mergeKeyValues s B none).stats.listInvalidTtls)
    ∧ (∀ (k' : String) (v' : Value), (k', v') ∈ B → ttlValid v' →
        (k', KvStoreNoMergeReason.INVALID_TTL) ∉
          (mergeKeyValues s B none).stats.noMergeReasons) := by
  have hdec : mergeDecision none (s k) k v = .rejected .INVALID_TTL := by
    unfold mergeDecision
    rw [if_neg (by simp [filterAllows]), if_pos ⟨hinf, hlow⟩]
  refine ⟨⟨?_, ?_, ?_, ?_⟩, ?_⟩
  · rw [mergeKeyValues_store_mem s B none k v hnd hmem, hdec]
  · refine mergeKeyValues_rejected_not_in_updates s B none k v hnd hmem ?_
    intro w b h
    rw [hdec] at h
    cases h
  · exact (mergeKeyValues_reason_mem s B none k v _ hnd hmem).mpr hdec
  · obtain ⟨B1, B2, rfl⟩ := List.append_of_mem hmem
    obtain ⟨hk1, hk2⟩ := nodup_keys_split B1 B2 k v hnd
    unfold mergeKeyValues
    rw [List.foldl_append, List.foldl_cons]
    refine merge_foldl_invalidTtls_mono none B2 _ _ ?_
    have hs1 : (B1.foldl (mergeStep none) ⟨s, [], emptyStats⟩).kvStore k = s k :=
      merge_foldl_store_notmem none B1 _ _ hk1
    rw [mergeStep_invalidTtls, hs1, hdec, if_pos rfl]
    exact List.mem_append_right _ (List.mem_singleton.mpr rfl)
  · intro k' v' hmem' hvalid hin
    have hd' := (mergeKeyValues_reason_mem s B none k' v' _ hnd hmem').mp hin
    exact mergeDecision_ttl_ok v' hvalid
      (mergeDecision_invalid_ttl_inv none (s k') k' v' hd')

/-- Witness for the TTL-validation theorem at a concrete input: a 0 ms ttl is
rejected, recorded, and listed; a valid entry is never recorded as
INVALID_TTL. -/
theorem mergeKeyValues_invalid_ttl_witness :
    ((mergeKeyValues emptyStore [("k", lowTtlVal)] none).kvStore "k" = emptyStore "k"
      ∧ (∀ w b, ("k", w, b) ∉ (mergeKeyValues emptyStore [("k", lowTtlVal)] none).kvUpdates)
      ∧ ("k", KvStoreNoMergeReason.INVALID_TTL) ∈
          (mergeKeyValues emptyStore [("k", lowTtlVal)] none).stats.noMergeReasons
      ∧ lowTtlVal.ttl ∈ (mergeKeyValues emptyStore [("k", lowTtlVal)] none).stats.listInvalidTtls)
    ∧ (∀ (k' : String) (v' : Value), (k', v') ∈ [("k", lowTtlVal)] → ttlValid v' →
        (k', KvStoreNoMergeReason.INVALID_TTL) ∉
          (mergeKeyValues emptyStore [("k", lowTtlVal)] none).stats.noMergeReasons) :=
  mergeKeyValues_invalid_ttl emptyStore [("k", lowTtlVal)] "k" lowTtlVal
    (by decide) (by decide) (by decide) (by decide)

/-- C3 (amended): across one successful merge, the stored value for a key
that was present is never deleted and never replaced by a compareValues-worse
value: the new stored value equals the old one or strictly wins the
comparison, and its version never decreases.  (Applied along any sequence of
merges this makes the per-key sequence of stored values non-decreasing under
compareValues between consecutive states.) -/
theorem mergeKeyValues_monotone (s : String → Option Value)
    (B : List (String × Value)) (f : Option KvStoreFilters) (k : String)
    (v : Value) (hnd : (B.map Prod.fst).Nodup) (hcur : s k = some v) :
    (∃ v', (mergeKeyValues s B f).kvStore k = some v')
    ∧ (∀ v', (mergeKeyValues s B f).kvStore k = some v' →
        (v' = v ∨ compareValues v' v = 1) ∧ v.version ≤ v'.version) := by
  by_cases hk : k ∈ B.map Prod.fst
  · obtain ⟨⟨k0, u⟩, hu, hk0⟩ := List.mem_map.mp hk
    obtain rfl : k0 = k := hk0
    have hchar := mergeKeyValues_store_mem s B f k0 u hnd hu
    cases hd : mergeDecision f (s k0) k0 u with
    | rejected r =>
        rw [hd] at hchar
        refine ⟨⟨v, by rw [hchar, hcur]⟩, ?_⟩
        intro v' hv'
        rw [hchar, hcur] at hv'
        injection hv' with h
        subst h
        exact ⟨Or.inl rfl, le_refl _⟩
    | accepted w b =>
        rw [hd] at hchar
        refine ⟨⟨w, hchar⟩, ?_⟩
        intro v' hv'
        rw [hchar] at hv'
        injection hv' with h
        subst h
        obtain ⟨_, _, hcases⟩ := mergeDecision_accepted_inv f (s k0) k0 u w b hd
        rcases hcases with ⟨hnone, _, _⟩ | ⟨c, hc, hcv, hcase⟩
        · rw [hcur] at hnone
          cases hnone
        · rw [hcur] at hc
          injection hc with hc
          subst hc
          rcases hcase with ⟨h1, h2, h3, hw, _⟩ | ⟨_, hw, _⟩
          · subst hw
            have htv : v.ttlVersion < u.ttlVersion := by
              have hct := compareValues_of_tie v u h1 h2 h3
              rw [hct] at hcv
              by_contra hno
              unfold compareTtlVersion at hcv
              rcases Nat.lt_or_ge u.ttlVersion v.ttlVersion with hx | hx
              · rw [if_pos hx] at hcv
                norm_num at hcv
              · rw [if_neg (Nat.not_lt.mpr hx), if_neg hno] at hcv
                norm_num at hcv
            constructor
            · right
              have htie2 : payloadStageTie
                  { v with ttl := u.ttl, ttlVersion := u.ttlVersion } v = true :=
                payloadStageTie_self v
              rw [compareValues_of_tie
                { v with ttl := u.ttl, ttlVersion := u.ttlVersion } v rfl rfl htie2]
              unfold compareTtlVersion
              simp [htv]
            · exact le_refl _
          · subst hw
            exact ⟨Or.inr (compareValues_flip_neg_one v w hcv),
              compareValues_neg_one_version_le v w hcv⟩
  · have hchar := mergeKeyValues_store_notmem s B f k hk
    refine ⟨⟨v, by rw [hchar, hcur]⟩, ?_⟩
    intro v' hv'
    rw [hchar, hcur] at hv'
    injection hv' with h
    subst h
    exact ⟨Or.inl rfl, le_refl _⟩

/-- C3 counterexample: a successful merge (the incoming payload is byte-wise
larger at equal version and originator) replaces the stored value, yet for
the fixed (key, originator_id) pair the stored (version, ttl_version) pair
decreases from (1, 5) to (1, 1). -/
theorem mergeKeyValues_pair_can_decrease :
    (mergeKeyValues monoStore [("k", mono_new)] none).kvStore "k" = some mono_new
    ∧ mono_new.originatorId = mono_old.originatorId
    ∧ mono_new.version = mono_old.version
    ∧ mono_new.ttlVersion < mono_old.ttlVersion :=
  ⟨rfl, rfl, rfl, by decide⟩

/-- Witness for the monotonicity theorem at a concrete input: the C3
counterexample's merge still moves the stored value strictly upward under
compareValues and does not decrease the version. -/
theorem mergeKeyValues_monotone_witness :
    (∃ v', (mergeKeyValues monoStore [("k", mono_new)] none).kvStore "k" = some v')
    ∧ (∀ v', (mergeKeyValues monoStore [("k", mono_new)] none).kvStore "k" = some v' →
        (v' = mono_old ∨ compareValues v' mono_old = 1) ∧
          mono_old.version ≤ v'.version) :=
  mergeKeyValues_monotone monoStore [("k", mono_new)] none "k" mono_old
    (by decide) (by decide)

/-- C4 counterexample, refuting the claim in each of its generalities.
(i) Two values whose comparison is unknown (payloads absent, hashes differ)
merged in the two orders into the empty store leave different final stored
values: the engine refuses the second arrival, so the first arrival wins
either way.  (ii) Two compare-equal values differing only in `ttl_ms` also
leave order-dependent records (the incumbent is kept on "equal"), so the
final stored value is not identical across orders even when all comparisons
are defined - it is only compare-equal.  (iii) For a multiset of three
values with every pairwise comparison defined and all TTLs valid, merged
into the empty store, the two orders leave final values that are not even
compare-equal (a payload-less ttl_version refresh lands on different
incumbents), so order-insensitivity cannot extend beyond pairs.  (iv) The
same two values merged into a store that already holds an entry for the key
likewise end not compare-equal, so it cannot extend to non-fresh keys.
(v) A value whose originator id is lexicographically larger but whose ttl is
invalid loses in both orders, so the originator tie-break needs valid
TTLs. -/
theorem mergeKeyValues_order_sensitive :
    ((mergeKeyValues (mergeKeyValues emptyStore [("k", unknown_v1)] none).kvStore
        [("k", unknown_v2)] none).kvStore "k"
      ≠
      (mergeKeyValues (mergeKeyValues emptyStore [("k", unknown_v2)] none).kvStore
        [("k", unknown_v1)] none).kvStore "k")
    ∧ ((mergeKeyValues (mergeKeyValues emptyStore [("k", ttlpair_v1)] none).kvStore
          [("k", ttlpair_v2)] none).kvStore "k" = some ttlpair_v1
      ∧ (mergeKeyValues (mergeKeyValues emptyStore [("k", ttlpair_v2)] none).kvStore
          [("k", ttlpair_v1)] none).kvStore "k" = some ttlpair_v2
      ∧ ttlpair_v1 ≠ ttlpair_v2
      ∧ compareValues ttlpair_v1 ttlpair_v2 = 0)
    ∧ ((mergeKeyValues (mergeKeyValues (mergeKeyValues emptyStore
          [("k", coll_a)] none).kvStore [("k", coll_y)] none).kvStore
          [("k", coll_b)] none).kvStore "k" = some coll_b
      ∧ (mergeKeyValues (mergeKeyValues (mergeKeyValues emptyStore
          [("k", coll_b)] none).kvStore [("k", coll_y)] none).kvStore
          [("k", coll_a)] none).kvStore "k" = some { coll_b with ttlVersion := 5 }
      ∧ compareValues coll_b { coll_b with ttlVersion := 5 } = -1)
    ∧ ((mergeKeyValues (mergeKeyValues collStore [("k", coll_b)] none).kvStore
          [("k", coll_y)] none).kvStore "k" = some { coll_b with ttlVersion := 5 }
      ∧ (mergeKeyValues (mergeKeyValues collStore [("k", coll_y)] none).kvStore
          [("k", coll_b)] none).kvStore "k" = some coll_b
      ∧ compareValues { coll_b with ttlVersion := 5 } coll_b = 1)
    ∧ ((mergeKeyValues (mergeKeyValues emptyStore [("k", tieA)] none).kvStore
          [("k", tieBlowTtl)] none).kvStore "k" = some tieA
      ∧ (mergeKeyValues (mergeKeyValues emptyStore [("k", tieBlowTtl)] none).kvStore
          [("k", tieA)] none).kvStore "k" = some tieA
      ∧ tieA.version = tieBlowTtl.version
      ∧ tieA.originatorId.data < tieBlowTtl.originatorId.data) := by
  decide

/-- Order-insensitivity of a two-value merge in the core case: both TTLs
valid, fresh key, defined comparison.  The two final stored values compare
equal, and with equal versions and distinct originators the value with the
lexicographically larger originator id is stored identically in both
orders. -/
theorem mergeKeyValues_pair_bothValid (s : String → Option Value) (k : String)
    (v1 v2 : Value) (hs : s k = none) (h1 : ttlValid v1) (h2 : ttlValid v2)
    (hcmp : compareValues v1 v2 ≠ -2) :
    (∃ a b,
      (mergeKeyValues (mergeKeyValues s [(k, v1)] none).kvStore
          [(k, v2)] none).kvStore k = some a
      ∧ (mergeKeyValues (mergeKeyValues s [(k, v2)] none).kvStore
          [(k, v1)] none).kvStore k = some b
      ∧ compareValues a b = 0)
    ∧ (v1.version = v2.version → v1.originatorId ≠ v2.originatorId →
        ((mergeKeyValues (mergeKeyValues s [(k, v1)] none).kvStore
            [(k, v2)] none).kvStore k
          = some (if v2.originatorId.data < v1.originatorId.data then v1 else v2)
        ∧ (mergeKeyValues (mergeKeyValues s [(k, v2)] none).kvStore
            [(k, v1)] none).kvStore k
          = some (if v2.originatorId.data < v1.originatorId.data then v1 else v2))) := by
  have hst1 : (mergeKeyValues s [(k, v1)] none).kvStore = setKey s k v1 := by
    rw [mergeKeyValues_single, hs, mergeDecision_fresh k v1 h1]
  have hst2 : (mergeKeyValues s [(k, v2)] none).kvStore = setKey s k v2 := by
    rw [mergeKeyValues_single, hs, mergeDecision_fresh k v2 h2]
  have hA : (mergeKeyValues (mergeKeyValues s [(k, v1)] none).kvStore
      [(k, v2)] none).kvStore
      = match mergeDecision none (some v1) k v2 with
        | .accepted w _ => setKey (setKey s k v1) k w
        | .rejected _ => setKey s k v1 := by
    rw [hst1, mergeKeyValues_single, setKey_self]
  have hB : (mergeKeyValues (mergeKeyValues s [(k, v2)] none).kvStore
      [(k, v1)] none).kvStore
      = match mergeDecision none (some v2) k v1 with
        | .accepted w _ => setKey (setKey s k v2) k w
        | .rejected _ => setKey s k v2 := by
    rw [hst2, mergeKeyValues_single, setKey_self]
  rcases compareValues_range v1 v2 with hr | hr | hr | hr
  · -- v1 strictly better: the first order keeps v1, the second order
    -- overrides v2 with v1 (in full, or as a TTL-only refresh of v2)
    have hAk : (mergeKeyValues (mergeKeyValues s [(k, v1)] none).kvStore
        [(k, v2)] none).kvStore k = some v1 := by
      have hdA : mergeDecision none (some v1) k v2 = .rejected .OLD_VERSION := by
        rw [mergeDecision_cur k v1 v2 h2, if_neg (by rw [hr]; norm_num), if_pos hr]
      simp [hA, hdA, setKey]
    have hr' : compareValues v2 v1 = -1 := compareValues_flip_one v1 v2 hr
    by_cases ht : v2.version = v1.version ∧ v2.originatorId = v1.originatorId ∧
        payloadStageTie v2 v1 = true
    · -- comparators (a)-(c) tie: the second order does a TTL-only refresh
      have hdB : mergeDecision none (some v2) k v1 =
          .accepted { v2 with ttl := v1.ttl, ttlVersion := v1.ttlVersion } true := by
        rw [mergeDecision_cur k v2 v1 h1, if_pos hr', if_pos ht]
      have hBk : (mergeKeyValues (mergeKeyValues s [(k, v2)] none).kvStore
          [(k, v1)] none).kvStore k =
          some { v2 with ttl := v1.ttl, ttlVersion := v1.ttlVersion } := by
        simp [hB, hdB, setKey]
      refine ⟨⟨v1, { v2 with ttl := v1.ttl, ttlVersion := v1.ttlVersion },
        hAk, hBk, ?_⟩, ?_⟩
      · have htie : payloadStageTie v1
            { v2 with ttl := v1.ttl, ttlVersion := v1.ttlVersion } = true :=
          payloadStageTie_symm v2 v1 ht.2.2
        rw [compareValues_of_tie v1
          { v2 with ttl := v1.ttl, ttlVersion := v1.ttlVersion }
          ht.1.symm ht.2.1.symm htie]
        unfold compareTtlVersion
        simp
      · intro _ ho
        exact absurd ht.2.1.symm ho
    · -- no tie: the second order stores v1 in full
      have hdB : mergeDecision none (some v2) k v1 = .accepted v1 false := by
        rw [mergeDecision_cur k v2 v1 h1, if_pos hr', if_neg ht]
      have hBk : (mergeKeyValues (mergeKeyValues s [(k, v2)] none).kvStore
          [(k, v1)] none).kvStore k = some v1 := by
        simp [hB, hdB, setKey]
      refine ⟨⟨v1, v1, hAk, hBk, compareValues_self v1⟩, ?_⟩
      intro hv ho
      have hwin : v2.originatorId.data < v1.originatorId.data := by
        have horig := compareValues_orig v1 v2 hv ho
        rw [hr] at horig
        by_contra hno
        rw [if_neg hno] at horig
        norm_num at horig
      rw [if_pos hwin]
      exact ⟨hAk, hBk⟩
  · -- v2 strictly better: symmetric to the previous case
    have hr' : compareValues v2 v1 = 1 := compareValues_flip_neg_one v1 v2 hr
    have hBk : (mergeKeyValues (mergeKeyValues s [(k, v2)] none).kvStore
        [(k, v1)] none).kvStore k = some v2 := by
      have hdB : mergeDecision none (some v2) k v1 = .rejected .OLD_VERSION := by
        rw [mergeDecision_cur k v2 v1 h1, if_neg (by rw [hr']; norm_num), if_pos hr']
      simp [hB, hdB, setKey]
    by_cases ht : v1.version = v2.version ∧ v1.originatorId = v2.originatorId ∧
        payloadStageTie v1 v2 = true
    · have hdA : mergeDecision none (some v1) k v2 =
          .accepted { v1 with ttl := v2.ttl, ttlVersion := v2.ttlVersion } true := by
        rw [mergeDecision_cur k v1 v2 h2, if_pos hr, if_pos ht]
      have hAk : (mergeKeyValues (mergeKeyValues s [(k, v1)] none).kvStore
          [(k, v2)] none).kvStore k =
          some { v1 with ttl := v2.ttl, ttlVersion := v2.ttlVersion } := by
        simp [hA, hdA, setKey]
      refine ⟨⟨{ v1 with ttl := v2.ttl, ttlVersion := v2.ttlVersion }, v2,
        hAk, hBk, ?_⟩, ?_⟩
      · rw [compareValues_of_tie
          { v1 with ttl := v2.ttl, ttlVersion := v2.ttlVersion } v2
          ht.1 ht.2.1 ht.2.2]
        unfold compareTtlVersion
        simp
      · intro _ ho
        exact absurd ht.2.1 ho
    · have hdA : mergeDecision none (some v1) k v2 = .accepted v2 false := by
        rw [mergeDecision_cur k v1 v2 h2, if_pos hr, if_neg ht]
      have hAk : (mergeKeyValues (mergeKeyValues s [(k, v1)] none).kvStore
          [(k, v2)] none).kvStore k = some v2 := by
        simp [hA, hdA, setKey]
      refine ⟨⟨v2, v2, hAk, hBk, compareValues_self v2⟩, ?_⟩
      intro hv ho
      have hwin : ¬ v2.originatorId.data < v1.originatorId.data := by
        have horig := compareValues_orig v1 v2 hv ho
        rw [hr] at horig
        by_contra hyes
        rw [if_pos hyes] at horig
        norm_num at horig
      rw [if_neg hwin]
      exact ⟨hAk, hBk⟩
  · -- equal: both orders keep the first arrival, and the two stored values
    -- compare equal
    have hAk : (mergeKeyValues (mergeKeyValues s [(k, v1)] none).kvStore
        [(k, v2)] none).kvStore k = some v1 := by
      have hdA : mergeDecision none (some v1) k v2 = .rejected .NO_NEED_TO_UPDATE := by
        rw [mergeDecision_cur k v1 v2 h2, if_neg (by rw [hr]; norm_num),
          if_neg (by rw [hr]; norm_num)]
      simp [hA, hdA, setKey]
    have hBk : (mergeKeyValues (mergeKeyValues s [(k, v2)] none).kvStore
        [(k, v1)] none).kvStore k = some v2 := by
      have hr' : compareValues v2 v1 = 0 := compareValues_flip_zero v1 v2 hr
      have hdB : mergeDecision none (some v2) k v1 = .rejected .NO_NEED_TO_UPDATE := by
        rw [mergeDecision_cur k v2 v1 h1, if_neg (by rw [hr']; norm_num),
          if_neg (by rw [hr']; norm_num)]
      simp [hB, hdB, setKey]
    refine ⟨⟨v1, v2, hAk, hBk, hr⟩, ?_⟩
    intro hv ho
    exfalso
    have horig := compareValues_orig v1 v2 hv ho
    rw [hr] at horig
    by_cases hc : v2.originatorId.data < v1.originatorId.data
    · rw [if_pos hc] at horig
      norm_num at horig
    · rw [if_neg hc] at horig
      norm_num at horig
  · exact absurd hr hcmp

/-- C4 (amended): merging two values for one key into a store with no prior
entry for that key, in the two possible orders, is order-insensitive up to
compare-equality whenever their comparison is defined: the two final stored
results are literally equal, or both present and compare-equal; moreover
(with both TTLs valid) with equal versions and distinct originators the
value with the lexicographically larger originator id is stored identically
regardless of which value arrived first.  No TTL-validity is assumed for the
first part: an entry failing the TTL validation is rejected identically in
both orders. -/
theorem mergeKeyValues_pair_insensitive (s : String → Option Value) (k : String)
    (v1 v2 : Value) (hs : s k = none) (hcmp : compareValues v1 v2 ≠ -2) :
    ((mergeKeyValues (mergeKeyValues s [(k, v1)] none).kvStore
        [(k, v2)] none).kvStore k
      = (mergeKeyValues (mergeKeyValues s [(k, v2)] none).kvStore
        [(k, v1)] none).kvStore k
     ∨ (∃ a b,
        (mergeKeyValues (mergeKeyValues s [(k, v1)] none).kvStore
            [(k, v2)] none).kvStore k = some a
        ∧ (mergeKeyValues (mergeKeyValues s [(k, v2)] none).kvStore
            [(k, v1)] none).kvStore k = some b
        ∧ compareValues a b = 0))
    ∧ (ttlValid v1 → ttlValid v2 → v1.version = v2.version →
        v1.originatorId ≠ v2.originatorId →
        ((mergeKeyValues (mergeKeyValues s [(k, v1)] none).kvStore
            [(k, v2)] none).kvStore k
          = some (if v2.originatorId.data < v1.originatorId.data then v1 else v2)
        ∧ (mergeKeyValues (mergeKeyValues s [(k, v2)] none).kvStore
            [(k, v1)] none).kvStore k
          = some (if v2.originatorId.data < v1.originatorId.data then v1 else v2))) := by
  by_cases h1 : ttlValid v1
  · by_cases h2 : ttlValid v2
    · obtain ⟨hex, htb⟩ := mergeKeyValues_pair_bothValid s k v1 v2 hs h1 h2 hcmp
      exact ⟨Or.inr hex, fun _ _ hv ho => htb hv ho⟩
    · -- the second value fails the TTL validation: it is rejected in both
      -- orders and the first value is stored either way
      have hst1 : (mergeKeyValues s [(k, v1)] none).kvStore = setKey s k v1 := by
        rw [mergeKeyValues_single, hs, mergeDecision_fresh k v1 h1]
      have hst2 : (mergeKeyValues s [(k, v2)] none).kvStore = s := by
        rw [mergeKeyValues_single, mergeDecision_invalid (s k) k v2 h2]
      have hA : (mergeKeyValues (mergeKeyValues s [(k, v1)] none).kvStore
          [(k, v2)] none).kvStore k = some v1 := by
        rw [hst1, mergeKeyValues_single, setKey_self,
          mergeDecision_invalid (some v1) k v2 h2]
        exact setKey_self s k v1
      have hB : (mergeKeyValues (mergeKeyValues s [(k, v2)] none).kvStore
          [(k, v1)] none).kvStore k = some v1 := by
        rw [hst2, hst1]
        exact setKey_self s k v1
      exact ⟨Or.inl (hA.trans hB.symm), fun _ htv2 _ _ => absurd htv2 h2⟩
  · by_cases h2 : ttlValid v2
    · -- the first value fails the TTL validation: symmetric
      have hst1 : (mergeKeyValues s [(k, v1)] none).kvStore = s := by
        rw [mergeKeyValues_single, mergeDecision_invalid (s k) k v1 h1]
      have hst2 : (mergeKeyValues s [(k, v2)] none).kvStore = setKey s k v2 := by
        rw [mergeKeyValues_single, hs, mergeDecision_fresh k v2 h2]
      have hA : (mergeKeyValues (mergeKeyValues s [(k, v1)] none).kvStore
          [(k, v2)] none).kvStore k = some v2 := by
        rw [hst1, hst2]
        exact setKey_self s k v2
      have hB : (mergeKeyValues (mergeKeyValues s [(k, v2)] none).kvStore
          [(k, v1)] none).kvStore k = some v2 := by
        rw [hst2, mergeKeyValues_single, setKey_self,
          mergeDecision_invalid (some v2) k v1 h1]
        exact setKey_self s k v2
      exact ⟨Or.inl (hA.trans hB.symm), fun htv1 _ _ _ => absurd htv1 h1⟩
    · -- both fail the TTL validation: nothing is stored in either order
      have hst1 : (mergeKeyValues s [(k, v1)] none).kvStore = s := by
        rw [mergeKeyValues_single, mergeDecision_invalid (s k) k v1 h1]
      have hst2 : (mergeKeyValues s [(k, v2)] none).kvStore = s := by
        rw [mergeKeyValues_single, mergeDecision_invalid (s k) k v2 h2]
      have hA : (mergeKeyValues (mergeKeyValues s [(k, v1)] none).kvStore
          [(k, v2)] none).kvStore k = s k := by
        rw [hst1, hst2]
      have hB : (mergeKeyValues (mergeKeyValues s [(k, v2)] none).kvStore
          [(k, v1)] none).kvStore k = s k := by
        rw [hst2, hst1]
      exact ⟨Or.inl (hA.trans hB.symm), fun htv1 _ _ _ => absurd htv1 h1⟩

/-- Witness for the pairwise order-insensitivity theorem at the spec's
originator tie-break example: nodeA and nodeB values merged in either order
leave compare-equal stored values, and the lexicographically larger
originator (nodeB) wins identically in both orders. -/
theorem mergeKeyValues_pair_insensitive_witness :
    ((mergeKeyValues (mergeKeyValues emptyStore [("key", tieA)] none).kvStore
        [("key", tieB)] none).kvStore "key"
      = (mergeKeyValues (mergeKeyValues emptyStore [("key", tieB)] none).kvStore
        [("key", tieA)] none).kvStore "key"
     ∨ (∃ a b,
        (mergeKeyValues (mergeKeyValues emptyStore [("key", tieA)] none).kvStore
            [("key", tieB)] none).kvStore "key" = some a
        ∧ (mergeKeyValues (mergeKeyValues emptyStore [("key", tieB)] none).kvStore
            [("key", tieA)] none).kvStore "key" = some b
        ∧ compareValues a b = 0))
    ∧ (ttlValid tieA → ttlValid tieB → tieA.version = tieB.version →
        tieA.originatorId ≠ tieB.originatorId →
        ((mergeKeyValues (mergeKeyValues emptyStore [("key", tieA)] none).kvStore
            [("key", tieB)] none).kvStore "key"
          = some (if tieB.originatorId.data < tieA.originatorId.data then tieA else tieB)
        ∧ (mergeKeyValues (mergeKeyValues emptyStore [("key", tieB)] none).kvStore
            [("key", tieA)] none).kvStore "key"
          = some (if tieB.originatorId.data < tieA.originatorId.data then tieA else tieB))) :=
  mergeKeyValues_pair_insensitive emptyStore "key" tieA tieB rfl (by decide)

/-- C5: merging the same batch twice in a row leaves the value table exactly
as after the first merge, the second merge produces an empty effective delta,
and every entry the first merge applied is counted NO_NEED_TO_UPDATE by the
second merge. -/
theorem mergeKeyValues_idempotent (s : String → Option Value)
    (B : List (String × Value)) (f : Option KvStoreFilters)
    (hnd : (B.map Prod.fst).Nodup) :
    ((mergeKeyValues (mergeKeyValues s B f).kvStore B f).kvStore
        = (mergeKeyValues s B f).kvStore)
    ∧ (mergeKeyValues (mergeKeyValues s B f).kvStore B f).kvUpdates = []
    ∧ (∀ k w b, (k, w, b) ∈ (mergeKeyValues s B f).kvUpdates →
        (k, KvStoreNoMergeReason.NO_NEED_TO_UPDATE) ∈
          (mergeKeyValues (mergeKeyValues s B f).kvStore B f).stats.noMergeReasons) := by
  have hsec : ∀ e ∈ B, ∃ r,
      mergeDecision f ((mergeKeyValues s B f).kvStore e.1) e.1 e.2 = .rejected r := by
    intro e he
    obtain ⟨k, v⟩ := e
    have hchar := mergeKeyValues_store_mem s B f k v hnd he
    cases hd : mergeDecision f (s k) k v with
    | accepted w b =>
        rw [hd] at hchar
        exact ⟨.NO_NEED_TO_UPDATE, by
          rw [hchar]
          exact mergeDecision_second f (s k) k v w b hd⟩
    | rejected r =>
        rw [hd] at hchar
        exact ⟨r, by rw [hchar, hd]⟩
  have hfr := merge_foldl_frozen f B (mergeKeyValues s B f).kvStore [] emptyStats hsec
  refine ⟨hfr.1, hfr.2, ?_⟩
  intro k w b hin
  have hk : k ∈ B.map Prod.fst := by
    rcases merge_foldl_updates_sub f B _ _ hin with h | h
    · simp at h
    · exact h
  obtain ⟨⟨k0, v⟩, hvB, hk0⟩ := List.mem_map.mp hk
  obtain rfl : k0 = k := hk0
  cases hd : mergeDecision f (s k0) k0 v with
  | rejected r =>
      refine absurd hin
        (mergeKeyValues_rejected_not_in_updates s B f k0 v hnd hvB ?_ w b)
      intro w' b' h'
      rw [hd] at h'
      cases h'
  | accepted w' b' =>
      have hchar := mergeKeyValues_store_mem s B f k0 v hnd hvB
      rw [hd] at hchar
      have hsec2 : mergeDecision f ((mergeKeyValues s B f).kvStore k0) k0 v =
          .rejected .NO_NEED_TO_UPDATE := by
        rw [hchar]
        exact mergeDecision_second f (s k0) k0 v w' b' hd
      exact (mergeKeyValues_reason_mem (mergeKeyValues s B f).kvStore B f k0 v _
        hnd hvB).mpr hsec2

/-- Witness for the idempotence theorem at a concrete input: a one-entry
batch merged twice into the empty store. -/
theorem mergeKeyValues_idempotent_witness :
    ((mergeKeyValues (mergeKeyValues emptyStore [("k", idemVal)] none).kvStore
        [("k", idemVal)] none).kvStore
        = (mergeKeyValues emptyStore [("k", idemVal)] none).kvStore)
    ∧ (mergeKeyValues (mergeKeyValues emptyStore [("k", idemVal)] none).kvStore
        [("k", idemVal)] none).kvUpdates = []
    ∧ (∀ k w b, (k, w, b) ∈ (mergeKeyValues emptyStore [("k", idemVal)] none).kvUpdates →
        (k, KvStoreNoMergeReason.NO_NEED_TO_UPDATE) ∈
          (mergeKeyValues (mergeKeyValues emptyStore [("k", idemVal)] none).kvStore
            [("k", idemVal)] none).stats.noMergeReasons) :=
  mergeKeyValues_idempotent emptyStore [("k", idemVal)] none (by decide)

/-- C7: in a `KvStoreFilters` instance an empty key-pattern list matches
every key, an empty originator set matches every originator, and the
combinator decides the overall match: under AND both the (anchored) key
match and the originator match must hold, under OR either one suffices. -/
theorem keyMatch_semantics (f : KvStoreFilters) (key : String) (v : Value) :
    (f.keyRegexMatch key = true ↔
      f.keyPrefixList = [] ∨ ∃ p ∈ f.keyPrefixList, p.isPrefixOf key = true)
    ∧ (f.originatorMatch v = true ↔
      f.originatorIds = [] ∨ v.originatorId ∈ f.originatorIds)
    ∧ (f.filterOperator = .AND →
      (f.keyMatch key v = true ↔
        (f.keyRegexMatch key = true ∧ f.originatorMatch v = true)))
    ∧ (f.filterOperator = .OR →
      (f.keyMatch key v = true ↔
        (f.keyRegexMatch key = true ∨ f.originatorMatch v = true))) := by
  refine ⟨?_, ?_, ?_, ?_⟩
  · simp [KvStoreFilters.keyRegexMatch, List.isEmpty_iff, List.any_eq_true]
  · simp [KvStoreFilters.originatorMatch, List.isEmpty_iff, List.elem_iff]
  · intro h
    simp [KvStoreFilters.keyMatch, h, KvStoreFilters.keyMatchAll]
  · intro h
    simp [KvStoreFilters.keyMatch, h, KvStoreFilters.keyMatchAny]

/-- C6 (amended): `dumpDifference` returns exactly the entries of the local
map whose key is absent from the requested map, together with those whose key
is present in both but whose hashes differ. -/
theorem dumpDifference_keys (area : String) (L R : List (String × Value))
    (k : String) (v : Value) :
    ((k, v) ∈ (dumpDifference area L R).keyVals ↔
      ((k, v) ∈ L ∧ (lookupKey R k = none ∨
        ∃ r, lookupKey R k = some r ∧ v.hash ≠ r.hash))) := by
  unfold dumpDifference
  simp only [List.mem_filter]
  refine and_congr_right fun _ => ?_
  cases hl : lookupKey R k with
  | none => simp
  | some r => simp [bne_iff_ne]

/-- C6 counterexample: the hashes differ, so `dumpDifference` includes the
key, although `compareValues` declares the requested side's value strictly
better than the local one. -/
theorem dumpDifference_includes_better :
    ("k", diff_local) ∈
        (dumpDifference "a" [("k", diff_local)] [("k", diff_req)]).keyVals
    ∧ compareValues diff_local diff_req = -1 := by
  decide

/-- C8: `updatePublicationTtl` rewrites each publication entry that has a
countdown-queue entry (recorded at insertion as deadline = insertion time +
ttl): the outgoing ttl becomes the original ttl minus the elapsed time since
insertion minus the fixed TTL-decrement constant; the key is erased from the
publication when that result falls below the threshold, and entries without
a queue entry are passed through unchanged. -/
theorem updatePublicationTtl_spec (q : List TtlCountdownQueueEntry)
    (ttlDecr now t0 : Int) (pub : Publication) (k : String) (v : Value)
    (qe : TtlCountdownQueueEntry)
    (hnd : (pub.keyVals.map Prod.fst).Nodup)
    (hmem : (k, v) ∈ pub.keyVals) :
    ((findQueueEntry q k v.ttlVersion = none →
        (k, v) ∈ (updatePublicationTtl q ttlDecr now pub).keyVals)
    ∧ (findQueueEntry q k v.ttlVersion = some qe →
        qe.expiryTime = t0 + v.ttl →
        ((v.ttl - (now - t0) - ttlDecr < kTtlThreshold →
            ∀ w, (k, w) ∉ (updatePublicationTtl q ttlDecr now pub).keyVals)
        ∧ (kTtlThreshold ≤ v.ttl - (now - t0) - ttlDecr →
            (k, { v with ttl := v.ttl - (now - t0) - ttlDecr })
              ∈ (updatePublicationTtl q ttlDecr now pub).keyVals)))) := by
  constructor
  · intro hq
    unfold updatePublicationTtl
    refine List.mem_filterMap.mpr ⟨(k, v), hmem, ?_⟩
    simp [hq]
  · intro hq hexp
    have harith : qe.expiryTime - now - ttlDecr = v.ttl - (now - t0) - ttlDecr := by
      rw [hexp]
      ring
    constructor
    · intro hlow w hin
      unfold updatePublicationTtl at hin
      obtain ⟨⟨k', v'⟩, hmem', hf⟩ := List.mem_filterMap.mp hin
      revert hf
      cases hq' : findQueueEntry q k' v'.ttlVersion with
      | none =>
          intro hf
          simp only [Option.some.injEq, Prod.mk.injEq] at hf
          obtain ⟨rfl, rfl⟩ := hf
          rw [nodup_keys_unique pub.keyVals k' v' v hnd hmem' hmem] at hq'
          rw [hq'] at hq
          cases hq
      | some q' =>
          intro hf
          simp only [] at hf
          split_ifs at hf with hcond
          simp only [Option.some.injEq, Prod.mk.injEq] at hf
          obtain ⟨rfl, _⟩ := hf
          have hv' : v' = v := nodup_keys_unique pub.keyVals k' v' v hnd hmem' hmem
          rw [hv'] at hq'
          rw [hq'] at hq
          injection hq with hq
          rw [hq, harith] at hcond
          exact absurd hlow hcond
    · intro hge
      unfold updatePublicationTtl
      refine List.mem_filterMap.mpr ⟨(k, v), hmem, ?_⟩
      simp only [hq]
      rw [if_neg (by rw [harith]; exact not_lt.mpr hge), harith]

/-- Witness for the countdown-adjustment theorem at a concrete input: at time
10000, 5000 ms after insertion, with a decrement of 1 ms the outgoing ttl is
30000 - 5000 - 1 = 24994 + 5 ms and the entry stays in the publication. -/
theorem updatePublicationTtl_spec_witness :
    (pubVal.ttl = 30000)
    ∧ ("k", { pubVal with ttl := pubVal.ttl - (10000 - 5000) - 1 })
        ∈ (updatePublicationTtl witnessQueue 1 10000 witnessPub).keyVals := by
  refine ⟨rfl, ?_⟩
  have h := (updatePublicationTtl_spec witnessQueue 1 10000 5000 witnessPub "k"
    pubVal ⟨35000, "k", 1⟩ (by decide) (by decide)).2 (by decide) (by decide)
  exact h.2 (by decide)

/-- C9: an incoming entry that advances only `ttl_version` (comparators
(a)-(c) tie with the stored value) is merged as a TTL-only update: the stored
value keeps its payload but takes the new `ttl_ms` and `ttl_version`; the
effective delta carries the entry marked TTL-only; delivery drops it entirely
for a subscriber with `ignore_ttl = true`, and delivers it with the payload
suppressed for a subscriber with `ignore_ttl = false` - while the value table
is updated in both cases. -/
theorem ttlOnly_update_delivery (s : String → Option Value) (k : String)
    (cur incoming : Value)
    (hcur : s k = some cur)
    (httl : ttlValid incoming)
    (hver : cur.version = incoming.version)
    (horig : cur.originatorId = incoming.originatorId)
    (htie : payloadStageTie cur incoming = true)
    (hadv : cur.ttlVersion < incoming.ttlVersion) :
    ((mergeKeyValues s [(k, incoming)] none).kvStore k =
        some { cur with ttl := incoming.ttl, ttlVersion := incoming.ttlVersion })
    ∧ (mergeKeyValues s [(k, incoming)] none).kvUpdates =
        [(k, { cur with ttl := incoming.ttl, ttlVersion := incoming.ttlVersion }, true)]
    ∧ deliverToSubscriber true (mergeKeyValues s [(k, incoming)] none).kvUpdates = []
    ∧ deliverToSubscriber false (mergeKeyValues s [(k, incoming)] none).kvUpdates =
        [(k, { cur with ttl := incoming.ttl, ttlVersion := incoming.ttlVersion,
                        value := none })] := by
  have hcmp : compareValues cur incoming = -1 := by
    rw [compareValues_of_tie cur incoming hver horig htie]
    unfold compareTtlVersion
    rw [if_neg (Nat.lt_asymm hadv), if_pos hadv]
  have hd : mergeDecision none (s k) k incoming =
      .accepted { cur with ttl := incoming.ttl, ttlVersion := incoming.ttlVersion }
        true := by
    rw [hcur, mergeDecision_cur k cur incoming httl, if_pos hcmp,
      if_pos ⟨hver, horig, htie⟩]
  have hone : mergeKeyValues s [(k, incoming)] none =
      ⟨setKey s k { cur with ttl := incoming.ttl, ttlVersion := incoming.ttlVersion },
       [(k, { cur with ttl := incoming.ttl, ttlVersion := incoming.ttlVersion }, true)],
       emptyStats⟩ := by
    unfold mergeKeyValues
    rw [List.foldl_cons, List.foldl_nil]
    unfold mergeStep
    rw [hd]
    rfl
  rw [hone]
  refine ⟨setKey_self _ _ _, rfl, ?_, ?_⟩ <;> simp [deliverToSubscriber]

/-- Witness for the TTL-only delivery theorem at the test's concrete values:
the stored ttl_version moves to 6; the subscriber that ignores TTL updates
receives nothing; the other subscriber receives the entry without payload. -/
theorem ttlOnly_update_delivery_witness :
    ((mergeKeyValues ttlStore [("key1", ttlInc)] none).kvStore "key1" =
        some { ttlCur with ttl := ttlInc.ttl, ttlVersion := ttlInc.ttlVersion })
    ∧ (mergeKeyValues ttlStore [("key1", ttlInc)] none).kvUpdates =
        [("key1", { ttlCur with ttl := ttlInc.ttl, ttlVersion := ttlInc.ttlVersion }, true)]
    ∧ deliverToSubscriber true (mergeKeyValues ttlStore [("key1", ttlInc)] none).kvUpdates = []
    ∧ deliverToSubscriber false (mergeKeyValues ttlStore [("key1", ttlInc)] none).kvUpdates =
        [("key1", { ttlCur with ttl := ttlInc.ttl, ttlVersion := ttlInc.ttlVersion,
                                value := none })] :=
  ttlOnly_update_delivery ttlStore "key1" ttlCur ttlInc (by decide) (by right; decide)
    (by decide) (by decide) (by decide) (by decide)

/-- C10: `authorizeConnection` raises an error if and only if the
acceptable-peer-common-name whitelist is non-empty and the connection
presents a non-empty peer common name that is not in the whitelist; an empty
peer common name or an empty whitelist is admitted (the event is only
logged). -/
theorem authorizeConnection_error_iff (peerCommonName : String)
    (acceptablePeerCommonNames : List String) :
    ((∃ msg, authorizeConnection peerCommonName acceptablePeerCommonNames =
        Except.error msg)
      ↔ (peerCommonName ≠ "" ∧ acceptablePeerCommonNames ≠ [] ∧
          peerCommonName ∉ acceptablePeerCommonNames)) := by
  unfold authorizeConnection
  split_ifs with h1 h2
  · rcases h1 with h | h <;> simp [h]
  · push_neg at h1
    have h2x : peerCommonName ∈ acceptablePeerCommonNames := by
      simpa [List.elem_iff] using h2
    simp [h2x]
  · push_neg at h1
    have h2x : peerCommonName ∉ acceptablePeerCommonNames := by
      simpa [List.elem_iff] using h2
    simp [h1.1, h1.2, h2x]

end Openr
